import Mathlib

/-!
Verification of the stk authentication core against its specification.

The Python source is shallowly embedded: SQLAlchemy rows become Lean
structures, the mutable database session becomes explicit state passing,
`datetime`/`time.monotonic` values become integers, and fallible effects
(commit, broadcast, provider token exchange) become explicit outcome
parameters or `Except` values.
-/

set_option autoImplicit false

namespace Stk

/-! ## Identity model (src/stk/user/models.py)

`User` keeps the columns the reconciliation engine reads or writes:
`id`, `email`, `name`, and the `password_set` flag (`False` for accounts
created by `create_oauth_user`).  `OAuth` is the (provider,
provider_user_id) → user binding; the raw token is elided (opaque to all
claims).  `DB` is the visible committed state of the storage session:
the `user` and `oauth` tables plus a fresh-id counter standing for the
autoincrement primary key. -/

structure User where
  id : Nat
  email : String
  name : String
  password_set : Bool
  deriving DecidableEq, Repr

structure OAuth where
  provider : String
  provider_user_id : String
  user_id : Nat
  deriving DecidableEq, Repr

structure DB where
  users : List User
  oauths : List OAuth
  nextId : Nat
  deriving DecidableEq, Repr

/-- Embeds `select(OAuth).filter_by(provider=..., provider_user_id=...)` with
`scalar_one_or_none()`. -/
def findOAuth (db : DB) (p puid : String) : Option OAuth :=
  db.oauths.find? (fun o => o.provider == p && o.provider_user_id == puid)

/-- Embeds `select(User).filter_by(email=email)` with `scalar_one_or_none()`. -/
def findUserByEmail (db : DB) (e : String) : Option User :=
  db.users.find? (fun u => u.email == e)

/-- Outcome of `handle_oauth_callback`: a redirect to the login page with
an error flash, or a login of the given user id (after logging into an
existing binding, linking to an email match, or creating a new user). -/
inductive ReconcileResult where
  | authFailed
  | loggedInExisting (uid : Nat)
  | linkedExisting (uid : Nat)
  | createdNew (uid : Nat)
  deriving DecidableEq, Repr

/-- Embeds `handle_oauth_callback` (src/stk/public/views.py lines 72-142).

Inputs are the values the provider branch extracts from the raw profile
(`provider_user_id`, `email`, `name`); `tokenPresent` models the
`if not token` guard, and `commitOk` models whether
`g.db_session.commit()` succeeds.  A failed commit raises; the
surrounding callback route catches it, flashes an error and redirects to
login, and the uncommitted rows are rolled back, so the visible state is
unchanged.  The `oauth_account.user` relationship is always non-null
(`user_id` is a non-nullable foreign key). -/
def handle_oauth_callback (db : DB) (provider_name provider_user_id : String)
    (email : Option String) (name : String)
    (tokenPresent : Bool) (commitOk : Bool) : ReconcileResult × DB :=
  if !tokenPresent then (.authFailed, db)
  else if provider_name != "google" && provider_name != "github" then (.authFailed, db)
  else
    match email with
    | none => (.authFailed, db)
    | some e =>
      match findOAuth db provider_name provider_user_id with
      | some oa => (.loggedInExisting oa.user_id, db)
      | none =>
        match findUserByEmail db e with
        | some u =>
          if commitOk then
            (.linkedExisting u.id,
              { db with oauths := db.oauths ++ [⟨provider_name, provider_user_id, u.id⟩] })
          else (.authFailed, db)
        | none =>
          if commitOk then
            (.createdNew db.nextId,
              { db with
                  users := db.users ++ [⟨db.nextId, e, name, false⟩],
                  oauths := db.oauths ++ [⟨provider_name, provider_user_id, db.nextId⟩],
                  nextId := db.nextId + 1 })
          else (.authFailed, db)

/-- The per-call inputs of one callback in a sequence sharing a fixed
(provider, provider_user_id) pair. -/
structure CallArgs where
  email : Option String
  name : String
  tokenPresent : Bool
  commitOk : Bool

/-- Run a sequence of `handle_oauth_callback` calls that all share the
same (provider, provider_user_id) pair, threading the database state. -/
def runSamePair (db : DB) (p q : String) : List CallArgs → DB × List ReconcileResult
  | [] => (db, [])
  | c :: cs =>
    let step := handle_oauth_callback db p q c.email c.name c.tokenPresent c.commitOk
    let rest := runSamePair step.2 p q cs
    (rest.1, step.1 :: rest.2)

/-- The user id a result logs in, if any. -/
def loginId : ReconcileResult → Option Nat
  | .authFailed => none
  | .loggedInExisting u => some u
  | .linkedExisting u => some u
  | .createdNew u => some u

/-- All elements of the list are equal. -/
def allSame : List Nat → Bool
  | [] => true
  | x :: xs => xs.all (fun y => y == x)

/-! ## Sliding-window rate limiter (src/stk/utils/ratelimit.py)

`_hits` maps a key to a deque of `time.monotonic()` timestamps; the
claims concern one key's window, modelled as a list of integer seconds,
oldest first.  With integer timestamps the `int()` truncation of the
Retry-After computation is exact. -/

/-- The eviction loop
`while window and window[0] <= now - period: window.popleft()`:
drop the expired prefix. -/
def evict (now period : Int) : List Int → List Int
  | [] => []
  | t :: ts => if t ≤ now - period then evict now period ts else t :: ts

inductive RLResult where
  | allow
  | reject (retryAfter : Int)
  deriving DecidableEq, Repr

/-- One rate-limit check on a single key's window, as in the `rate_limit`
wrapper and `check_security_rate_limit`: evict, then either reject with
`Retry-After = int(period - (now - window[0])) + 1` recording nothing, or
append `now` and allow.  `window[0]` is rendered total by `headD`; Python
would only index an empty window in the vacuous configuration
`max_calls = 0`, which no route uses. -/
def check (window : List Int) (now : Int) (maxCalls : Nat) (period : Int) :
    RLResult × List Int :=
  let w := evict now period window
  if maxCalls ≤ w.length then (.reject (period - (now - w.headD 0) + 1), w)
  else (.allow, w ++ [now])

/-- Modelled from the spec words of claim C5, for comparison with the
code: evict exactly the timestamps strictly older than `now - period`. -/
def specEvict (now period : Int) (window : List Int) : List Int :=
  window.filter (fun t => decide (now - period ≤ t))

/-- The check as claim C5 words it, differing from `check` only in the
eviction rule (strict "older than" instead of the code's `<=`). -/
def specCheck (window : List Int) (now : Int) (maxCalls : Nat) (period : Int) :
    RLResult × List Int :=
  let w := specEvict now period window
  if maxCalls ≤ w.length then (.reject (period - (now - w.headD 0) + 1), w)
  else (.allow, w ++ [now])

/-- A sequence of checks on one key, threading the window. -/
def runChecks (maxCalls : Nat) (period : Int) (window : List Int) :
    List Int → List RLResult × List Int
  | [] => ([], window)
  | t :: ts =>
    let s := check window t maxCalls period
    let rest := runChecks maxCalls period s.2 ts
    (s.1 :: rest.1, rest.2)

/-! ## Realtime broadcast hub (src/stk/websocket.py)

`_clients : dict[str, set[asyncio.Queue]]` maps a user id to that user's
open connection queues.  A queue is a Python object mutated in place;
`Queue.id` stands for its object identity and `buf` for its queued
payloads, so enqueueing is a map over the registry replacing the
targeted objects. -/

structure Queue where
  id : Nat
  buf : List String
  deriving DecidableEq, Repr

abbrev Clients := List (String × List Queue)

/-- Embeds `get_connected_users()`: `list(_clients.keys())`. -/
def get_connected_users (cs : Clients) : List String :=
  cs.map (fun e => e.1)

/-- Python truthiness of the `user_id: str | None` parameter: `None` and
the empty string are falsy. -/
def pyTruthy : Option String → Bool
  | none => false
  | some s => s != ""

/-- Embeds `_clients.get(user_id, set())`. -/
def clientsGet (cs : Clients) (uid : String) : List Queue :=
  match cs.find? (fun e => e.1 == uid) with
  | some e => e.2
  | none => []

/-- The queue objects `broadcast` targets: the given identity's current
queues when `user_id` is truthy, else every registered queue
(`{q for qs in _clients.values() for q in qs}`). -/
def targetsOf (cs : Clients) (uid : Option String) : List Nat :=
  if pyTruthy uid then (clientsGet cs (uid.getD "")).map Queue.id
  else ((cs.map (fun e => e.2)).flatten).map Queue.id

/-- Embeds `broadcast(message, user_id=None)`: `payload = json.dumps(message)`
once, then `await queue.put(payload)` for each targeted queue. -/
def broadcast {Msg : Type} (serialize : Msg → String) (cs : Clients) (m : Msg)
    (uid : Option String) : Clients :=
  let payload := serialize m
  let targets := targetsOf cs uid
  cs.map (fun e =>
    (e.1, e.2.map (fun q => if q.id ∈ targets then ⟨q.id, q.buf ++ [payload]⟩ else q)))

/-- Well-formedness of the registry as the endpoint maintains it:
distinct dict keys, and queues are distinct objects. -/
def ClientsWF (cs : Clients) : Prop :=
  (cs.map (fun e => e.1)).Nodup ∧ ((cs.map (fun e => e.2.map Queue.id)).flatten).Nodup

/-- Models `current_user` as the endpoint sees it: absent (falsy proxy) or a
user object with its `is_authenticated` flag. -/
structure CurrentUser where
  id : Nat
  is_authenticated : Bool
  deriving DecidableEq, Repr

inductive WsOpen where
  | closed (code : Nat) (reason : String)
  | accepted (user_id : String)
  deriving DecidableEq, Repr

/-- The opening phase of `ws_endpoint`: an unauthenticated caller is
closed with application code 4001 and reason "Unauthorized" before any
queue is created; an authenticated caller gets a fresh queue registered
under `str(current_user.id)`
(`_clients.setdefault(user_id, set()).add(queue)`). -/
def ws_endpoint_open (caller : Option CurrentUser) (cs : Clients) (freshId : Nat) :
    WsOpen × Clients :=
  match caller with
  | none => (.closed 4001 ("Unauthorized"), cs)
  | some u =>
    if !u.is_authenticated then (.closed 4001 ("Unauthorized"), cs)
    else
      let uid := toString u.id
      match cs.find? (fun e => e.1 == uid) with
      | some _ =>
        (.accepted uid,
          cs.map (fun e => if e.1 == uid then (e.1, e.2 ++ [⟨freshId, []⟩]) else e))
      | none => (.accepted uid, cs ++ [(uid, [⟨freshId, []⟩])])

/-! ## Session registry sweep (src/stk/tasks/__init__.py) -/

/-- A `user_sessions` row, keeping the columns the sweep reads or
writes; timestamps are integer seconds. -/
structure Session where
  user_id : Nat
  session_token : String
  is_active : Bool
  created_at : Int
  deriving DecidableEq, Repr

/-- Default `PERMANENT_SESSION_LIFETIME`, seconds. -/
def sessionLifetime : Int := 3600

/-- Retention window `timedelta(days=30)` in seconds. -/
def deleteRetention : Int := 30 * 86400

/-- Phase (a) of `cleanup_expired_sessions`:
`UPDATE ... SET is_active = false WHERE is_active AND created_at < cutoff`. -/
def deactivateExpired (now : Int) (rs : List Session) : List Session :=
  rs.map (fun r =>
    if r.is_active ∧ r.created_at < now - sessionLifetime then
      { r with is_active := false }
    else r)

/-- Phase (b): `DELETE ... WHERE created_at < delete_cutoff`. -/
def deleteOld (now : Int) (rs : List Session) : List Session :=
  rs.filter (fun r => !(decide (r.created_at < now - deleteRetention)))

/-- Embeds `cleanup_expired_sessions` at a fixed logical time `now` (the source
takes `datetime.now()` twice back to back; both cutoffs use the same
instant here): deactivate the expired, then delete the very old, one
commit. -/
def cleanup_expired_sessions (now : Int) (rs : List Session) : List Session :=
  deleteOld now (deactivateExpired now rs)

/-! ## Background task supervisor (src/stk/tasks/__init__.py) -/

/-- A detached unit of work: the coroutine either returns a value or
raises with a message. -/
inductive Coro (α : Type) where
  | ret (a : α)
  | raise (msg : String)
  deriving DecidableEq, Repr

/-- Terminal state of one `asyncio.Task`. -/
inductive TaskOutcome (α : Type) where
  | ok (a : α)
  | failed (msg : String)
  | cancelled
  deriving DecidableEq, Repr

/-- The event loop drives one task to its terminal state: a cancellation
wins, otherwise the coroutine's own result, with a raise captured in the
task object (never surfaced to the scheduling caller). -/
def runTask {α : Type} (c : Coro α) (cancel : Bool) : TaskOutcome α :=
  if cancel then .cancelled
  else match c with
    | .ret a => .ok a
    | .raise m => .failed m

/-- Embeds `_log_task_exception` as a done callback: log iff the task was not
cancelled and holds an exception. -/
def _log_task_exception {α : Type} (t : TaskOutcome α) : List String :=
  match t with
  | .failed msg => [("Background task failed: ") ++ msg]
  | _ => []

/-- Embeds `run_in_background`: `asyncio.create_task(coro)` plus the done
callback.  It yields the task's outcome and the log entries the callback
emits; the function always returns (a handle, in the source) and never
re-raises into the caller. -/
def run_in_background {α : Type} (c : Coro α) (cancel : Bool) :
    TaskOutcome α × List String :=
  let t := runTask c cancel
  (t, _log_task_exception t)

/-- The loop running every scheduled detached unit independently,
collecting outcomes and log output in scheduling order. -/
def runDetachedAll {α : Type} (units : List (Coro α × Bool)) :
    List (TaskOutcome α) × List String :=
  match units with
  | [] => ([], [])
  | u :: us =>
    let s := run_in_background u.1 u.2
    let rest := runDetachedAll us
    (s.1 :: rest.1, s.2 ++ rest.2)

/-! ## Activity sink (src/stk/user/models.py, `Activity.register`) -/

structure Activity where
  user_id : Nat
  action : String
  data : Option String
  deriving DecidableEq, Repr

/-- Embeds `Activity.register(user_id, action, data)`: build the row, add it to
the storage session, then forward an activity frame to the broadcast hub
inside `try: ... except Exception: pass`.  `hubOk = false` models the
broadcast call raising; the registry is then left as it was.  The result
is `Except` to make "never raises to the caller" a provable statement. -/
def Activity.register (serialize : Activity → String) (pending : List Activity)
    (cs : Clients) (user_id : Nat) (action : String) (data : Option String)
    (hubOk : Bool) : Except String (Activity × List Activity × Clients) :=
  let activity : Activity := ⟨user_id, action, data⟩
  let pending1 := pending ++ [activity]
  if hubOk then .ok (activity, pending1, broadcast serialize cs activity none)
  else .ok (activity, pending1, cs)

/-! ## Theorems: identity reconciliation -/

theorem callback_binding_present (db : DB) (p q : String) (oa : OAuth)
    (h : findOAuth db p q = some oa) (em : Option String) (nm : String) (tk ck : Bool) :
    (handle_oauth_callback db p q em nm tk ck).2 = db ∧
      ((handle_oauth_callback db p q em nm tk ck).1 = .authFailed ∨
        (handle_oauth_callback db p q em nm tk ck).1 = .loggedInExisting oa.user_id) := by
  unfold handle_oauth_callback
  cases tk <;> cases em <;> simp [h]
  all_goals (split <;> simp)

theorem callback_no_binding (db : DB) (p q : String) (em : Option String) (nm : String)
    (tk ck : Bool) (h : findOAuth db p q = none) :
    (loginId (handle_oauth_callback db p q em nm tk ck).1 = none ∧
        (handle_oauth_callback db p q em nm tk ck).2 = db) ∨
      (∃ u : Nat, loginId (handle_oauth_callback db p q em nm tk ck).1 = some u ∧
        findOAuth (handle_oauth_callback db p q em nm tk ck).2 p q = some ⟨p, q, u⟩ ∧
        (handle_oauth_callback db p q em nm tk ck).2.users.length ≤ db.users.length + 1) := by
  have hfind : db.oauths.find?
      (fun o => o.provider == p && o.provider_user_id == q) = none := h
  unfold handle_oauth_callback
  cases tk with
  | false => left; exact ⟨rfl, rfl⟩
  | true =>
    cases hpv : (p != "google" && p != "github") with
    | true => cases em <;> (left; simp [hpv, loginId])
    | false =>
      cases em with
      | none => left; simp [hpv, loginId]
      | some e =>
        cases hu : findUserByEmail db e with
        | some u =>
          cases ck with
          | false => left; simp [hpv, h, hu, loginId]
          | true =>
            right
            refine ⟨u.id, ?_, ?_, ?_⟩
            · simp [hpv, h, hu, loginId]
            · simp [hpv, h, hu, findOAuth, List.find?_append, hfind, List.find?]
            · simp [hpv, h, hu]
        | none =>
          cases ck with
          | false => left; simp [hpv, h, hu, loginId]
          | true =>
            right
            refine ⟨db.nextId, ?_, ?_, ?_⟩
            · simp [hpv, h, hu, loginId]
            · simp [hpv, h, hu, findOAuth, List.find?_append, hfind, List.find?]
            · simp [hpv, h, hu]

theorem runSamePair_binding_present (db : DB) (p q : String) (oa : OAuth)
    (h : findOAuth db p q = some oa) (cs : List CallArgs) :
    (runSamePair db p q cs).1 = db ∧
      ∀ r ∈ (runSamePair db p q cs).2, loginId r = none ∨ loginId r = some oa.user_id := by
  induction cs with
  | nil => exact ⟨rfl, by intro r hr; simp [runSamePair] at hr⟩
  | cons c cs ih =>
    obtain ⟨hdb, hres⟩ :=
      callback_binding_present db p q oa h c.email c.name c.tokenPresent c.commitOk
    simp only [runSamePair, hdb]
    refine ⟨ih.1, ?_⟩
    intro r hr
    rcases List.mem_cons.mp hr with hr1 | hr1
    · subst hr1; rcases hres with h1 | h1 <;> simp [h1, loginId]
    · exact ih.2 r hr1

theorem filterMap_loginId_eq (rs : List ReconcileResult) (a : Nat)
    (h : ∀ r ∈ rs, loginId r = none ∨ loginId r = some a) :
    ∀ x ∈ rs.filterMap loginId, x = a := by
  intro x hx
  rw [List.mem_filterMap] at hx
  obtain ⟨r, hr, hlr⟩ := hx
  rcases h r hr with h1 | h1 <;> rw [h1] at hlr
  · cases hlr
  · injection hlr with hh; exact hh.symm

theorem allSame_of_eq (l : List Nat) (a : Nat) (h : ∀ x ∈ l, x = a) : allSame l = true := by
  cases l with
  | nil => rfl
  | cons x xs =>
    have hx : x = a := h x (by simp)
    simp only [allSame, List.all_eq_true]
    intro y hy
    have hy2 : y = a := h y (by simp [hy])
    simp [hy2, hx]

/-- C1: in any sequence of `handle_oauth_callback` calls sharing one
(provider, provider_user_id) pair, at most one Identity is ever created
(the user table grows by at most one over the whole run), and every call
that results in a login logs in the same identity: the one resolved by
the first successful call. -/
theorem reconcile_same_pair_at_most_one_identity (db : DB) (p q : String)
    (cs : List CallArgs) :
    (runSamePair db p q cs).1.users.length ≤ db.users.length + 1 ∧
      allSame ((runSamePair db p q cs).2.filterMap loginId) = true := by
  induction cs generalizing db with
  | nil => simp [runSamePair, allSame]
  | cons c cs ih =>
    cases hb : findOAuth db p q with
    | some oa =>
      obtain ⟨hdb, hall⟩ := runSamePair_binding_present db p q oa hb (c :: cs)
      refine ⟨by rw [hdb]; omega, ?_⟩
      exact allSame_of_eq _ oa.user_id (filterMap_loginId_eq _ _ hall)
    | none =>
      rcases callback_no_binding db p q c.email c.name c.tokenPresent c.commitOk hb with
        ⟨hnone, hdb⟩ | ⟨u, hsome, hbind, hlen⟩
      · simp only [runSamePair, hdb]
        obtain ⟨ih1, ih2⟩ := ih db
        refine ⟨ih1, ?_⟩
        rw [List.filterMap_cons, hnone]
        exact ih2
      · obtain ⟨hdb2, hall⟩ := runSamePair_binding_present _ p q ⟨p, q, u⟩ hbind cs
        simp only [runSamePair]
        constructor
        · rw [hdb2]; exact hlen
        · rw [List.filterMap_cons, hsome]
          have hrest := filterMap_loginId_eq _ _ hall
          simp only [allSame, List.all_eq_true]
          intro y hy
          simp [hrest y hy]

/-- C2: a callback whose (provider, provider_user_id) has no binding but
whose email matches an existing Identity links to it (creates only the
ExternalIdentity bound to the existing user, logs it in, adds no second
Identity); and two callbacks from the two different providers bearing the
same email, run from a fresh store, resolve to the same identity id. -/
theorem reconcile_links_existing_email (db : DB) (p q e nm : String) (u : User)
    (hp : p = "google" ∨ p = "github")
    (hb : findOAuth db p q = none) (he : findUserByEmail db e = some u) :
    ((handle_oauth_callback db p q (some e) nm true true).1 = .linkedExisting u.id ∧
      (handle_oauth_callback db p q (some e) nm true true).2.users = db.users ∧
      (handle_oauth_callback db p q (some e) nm true true).2.oauths
        = db.oauths ++ [⟨p, q, u.id⟩]) ∧
    (∀ q1 q2 e2 n1 n2 : String,
      loginId (handle_oauth_callback ⟨[], [], 0⟩ ("google") q1 (some e2) n1 true true).1
        = some 0 ∧
      loginId (handle_oauth_callback
          (handle_oauth_callback ⟨[], [], 0⟩ ("google") q1 (some e2) n1 true true).2
          ("github") q2 (some e2) n2 true true).1 = some 0) := by
  have hpv : (p != "google" && p != "github") = false := by
    rcases hp with h1 | h1 <;> subst h1 <;> rfl
  constructor
  · unfold handle_oauth_callback
    simp [hpv, hb, he]
  · intro q1 q2 e2 n1 n2
    constructor
    · unfold handle_oauth_callback
      simp [findOAuth, findUserByEmail, List.find?, loginId]
    · unfold handle_oauth_callback
      simp [findOAuth, findUserByEmail, List.find?, loginId]

theorem reconcile_links_existing_email_witness :
    (handle_oauth_callback ⟨[⟨7, "a@x.com", "A", true⟩], [], 8⟩ ("google") ("abc")
        (some ("a@x.com")) ("N") true true).1 = .linkedExisting 7 :=
  (reconcile_links_existing_email ⟨[⟨7, "a@x.com", "A", true⟩], [], 8⟩ ("google") ("abc")
      ("a@x.com") ("N") ⟨7, "a@x.com", "A", true⟩ (Or.inl rfl) (by decide) (by decide)).1.1

/-- C3: a callback in which the provider supplies no email fails (redirect
back to login with an error) before any lookup or persistence: the result
is `authFailed` and the database state is completely unchanged, for every
provider, token outcome and commit outcome. -/
theorem reconcile_missing_email_no_mutation (db : DB) (p q nm : String) (tk ck : Bool) :
    (handle_oauth_callback db p q none nm tk ck).1 = .authFailed ∧
      (handle_oauth_callback db p q none nm tk ck).2 = db := by
  unfold handle_oauth_callback
  cases tk
  · exact ⟨rfl, rfl⟩
  · simp [ite_self]

/-- C4: on the create-new-user path the new Identity and its
ExternalIdentity form one atomic unit under the single commit: a failed
commit leaves the state exactly as before, a successful commit appends
exactly the user/binding pair, and under either outcome the state
contains the new Identity if and only if it contains its
ExternalIdentity. -/
theorem reconcile_create_atomic (db : DB) (p q e nm : String)
    (hp : p = "google" ∨ p = "github")
    (hb : findOAuth db p q = none) (he : findUserByEmail db e = none) :
    (handle_oauth_callback db p q (some e) nm true false).2 = db ∧
      (handle_oauth_callback db p q (some e) nm true true).2
        = { users := db.users ++ [⟨db.nextId, e, nm, false⟩],
            oauths := db.oauths ++ [⟨p, q, db.nextId⟩],
            nextId := db.nextId + 1 } ∧
      ∀ ck : Bool,
        ((⟨db.nextId, e, nm, false⟩ : User)
            ∈ (handle_oauth_callback db p q (some e) nm true ck).2.users ↔
          (⟨p, q, db.nextId⟩ : OAuth)
            ∈ (handle_oauth_callback db p q (some e) nm true ck).2.oauths) := by
  have hpv : (p != "google" && p != "github") = false := by
    rcases hp with h1 | h1 <;> subst h1 <;> rfl
  have hfail : (handle_oauth_callback db p q (some e) nm true false).2 = db := by
    unfold handle_oauth_callback
    simp [hpv, hb, he]
  have hok : (handle_oauth_callback db p q (some e) nm true true).2
      = { users := db.users ++ [⟨db.nextId, e, nm, false⟩],
          oauths := db.oauths ++ [⟨p, q, db.nextId⟩],
          nextId := db.nextId + 1 } := by
    unfold handle_oauth_callback
    simp [hpv, hb, he]
  refine ⟨hfail, hok, ?_⟩
  intro ck
  cases ck
  · rw [hfail]
    constructor
    · intro hmem
      have := List.find?_eq_none.mp he _ hmem
      simp at this
    · intro hmem
      have := List.find?_eq_none.mp hb _ hmem
      simp at this
  · rw [hok]
    simp

theorem reconcile_create_atomic_witness :
    (handle_oauth_callback ⟨[], [], 0⟩ ("google") ("abc") (some ("a@x.com")) ("A")
        true false).2 = ⟨[], [], 0⟩ :=
  (reconcile_create_atomic ⟨[], [], 0⟩ ("google") ("abc") ("a@x.com") ("A")
      (Or.inl rfl) (by decide) (by decide)).1

/-! ## Theorems: sliding-window rate limiter -/

theorem evict_eq_filter (now period : Int) (window : List Int)
    (hs : window.Sorted (· ≤ ·)) :
    evict now period window
      = window.filter (fun t => !(decide (t ≤ now - period))) := by
  induction window with
  | nil => rfl
  | cons t ts ih =>
    rw [List.sorted_cons] at hs
    by_cases h : t ≤ now - period
    · simp only [evict, if_pos h, List.filter_cons]
      rw [ih hs.2]
      simp [h]
    · simp only [evict, if_neg h, List.filter_cons]
      simp only [h, decide_False, Bool.not_false, if_true]
      have : List.filter (fun t => !(decide (t ≤ now - period))) ts = ts := by
        apply List.filter_eq_self.mpr
        intro x hx
        have hle := hs.1 x hx
        simp only [Bool.not_eq_true', decide_eq_false_iff_not]
        omega
      rw [this]

/-- C5 counterexample: the claim evicts only timestamps strictly older
than `now - period`, but the code's loop uses `window[0] <= now - period`
and also evicts an entry of age exactly `period`.  At window `[0]`,
`now = 60`, `period = 60`, `max_calls = 1` the code allows the call
(and records t=60) while the claimed rule would keep the old entry and
reject with Retry-After 1. -/
theorem check_eviction_boundary_counterexample :
    check [0] 60 1 60 = (.allow, [60]) ∧ specCheck [0] 60 1 60 = (.reject 1, [0]) := by
  decide

/-- C5 (amended): each check on a key first evicts all recorded
timestamps `t` with `t ≤ now - period` (age at least `period`: the
code's inclusive boundary, rather than strictly older than
`now - period`); if at least `max_calls` timestamps remain it rejects
with `retryAfterSeconds = period - (now - oldest_remaining) + 1` and
records nothing, otherwise it appends `now` and allows.  Consequently,
with `max_calls = 10` and `period = 60` on one key, calls 1-10 at t=0
all allow, an 11th call at t=5 rejects with Retry-After 56, and a call
at t=61 allows again. -/
theorem check_sliding_window (window : List Int) (now : Int) (maxCalls : Nat)
    (period : Int) (hs : window.Sorted (· ≤ ·)) :
    (evict now period window
        = window.filter (fun t => !(decide (t ≤ now - period)))) ∧
      (maxCalls ≤ (evict now period window).length →
        check window now maxCalls period
          = (.reject (period - (now - (evict now period window).headD 0) + 1),
              evict now period window)) ∧
      ((evict now period window).length < maxCalls →
        check window now maxCalls period
          = (.allow, evict now period window ++ [now])) ∧
      runChecks 10 60 [] (List.replicate 10 0 ++ [5, 61])
        = (List.replicate 10 RLResult.allow ++ [RLResult.reject 56, RLResult.allow],
            [61]) := by
  refine ⟨evict_eq_filter now period window hs, ?_, ?_, by decide⟩
  · intro h
    simp [check, h]
  · intro h
    simp [check, not_le.mpr h]

theorem check_sliding_window_witness :
    evict 60 60 ([0, 3, 7] : List Int)
      = List.filter (fun t => !(decide (t ≤ (60 : Int) - 60))) [0, 3, 7] :=
  (check_sliding_window [0, 3, 7] 60 1 60 (by decide)).1

/-! ## Theorems: session sweep -/

/-- C7: the sweep is idempotent at a fixed time: running
`cleanup_expired_sessions` twice at the same `now` with no intervening
new sessions leaves exactly the active/deleted state of one run — the
second deactivation phase and deletion phase both change nothing. -/
theorem cleanup_expired_sessions_idempotent (now : Int) (rs : List Session) :
    cleanup_expired_sessions now (cleanup_expired_sessions now rs)
      = cleanup_expired_sessions now rs := by
  induction rs with
  | nil => rfl
  | cons r rs ih =>
    simp only [cleanup_expired_sessions, deactivateExpired, deleteOld, List.map_cons,
      List.filter_cons] at ih ⊢
    by_cases h1 : (r.is_active = true) ∧ r.created_at < now - sessionLifetime
    · simp only [if_pos h1]
      by_cases h2 : r.created_at < now - deleteRetention
      · simp only [h2, decide_True, Bool.not_true, Bool.false_eq_true, if_false]
        exact ih
      · simp only [h2, decide_False, Bool.not_false, if_true, List.map_cons,
          List.filter_cons]
        simp only [Bool.false_eq_true, false_and, if_false, h2, decide_False,
          Bool.not_false, if_true]
        rw [ih]
    · simp only [if_neg h1]
      by_cases h2 : r.created_at < now - deleteRetention
      · simp only [h2, decide_True, Bool.not_true, Bool.false_eq_true, if_false]
        exact ih
      · simp only [h2, decide_False, Bool.not_false, if_true, List.map_cons,
          List.filter_cons]
        simp only [if_neg h1, h2, decide_False, Bool.not_false, if_true]
        rw [ih]

/-! ## Theorems: background task supervisor -/

theorem runDetachedAll_append {α : Type} (xs ys : List (Coro α × Bool)) :
    runDetachedAll (xs ++ ys)
      = ((runDetachedAll xs).1 ++ (runDetachedAll ys).1,
          (runDetachedAll xs).2 ++ (runDetachedAll ys).2) := by
  induction xs with
  | nil => simp [runDetachedAll]
  | cons x xs ih => simp [runDetachedAll, ih]

/-- C9: an uncaught exception in a detached unit is captured in that
task's outcome and logged with the `Background task failed` record, and
never propagates: every unit scheduled before or after the raising one
runs to exactly the outcome it has on its own, and the loop returns
normally. -/
theorem run_detached_isolates_failures {α : Type} (pre post : List (Coro α × Bool))
    (msg : String) :
    (runDetachedAll (pre ++ (Coro.raise msg, false) :: post)).1
        = (runDetachedAll pre).1 ++ TaskOutcome.failed msg :: (runDetachedAll post).1 ∧
      (runDetachedAll (pre ++ (Coro.raise msg, false) :: post)).2
        = (runDetachedAll pre).2
            ++ (("Background task failed: ") ++ msg) :: (runDetachedAll post).2 := by
  rw [runDetachedAll_append]
  simp [runDetachedAll, run_in_background, runTask, _log_task_exception]

/-! ## Theorems: broadcast hub -/

theorem find_key_of_mem (cs : Clients) (e : String × List Queue)
    (hnd : (cs.map (fun x => x.1)).Nodup) (he : e ∈ cs) :
    cs.find? (fun x => x.1 == e.1) = some e := by
  induction cs with
  | nil => cases he
  | cons a cs ih =>
    rw [List.map_cons, List.nodup_cons] at hnd
    rcases List.mem_cons.mp he with h | h
    · subst h
      exact List.find?_cons_of_pos _ (beq_self_eq_true e.1)
    · have hne : a.1 ≠ e.1 := by
        intro heq
        exact hnd.1 (heq ▸ List.mem_map_of_mem (fun x => x.1) h)
      rw [List.find?_cons_of_neg _ (by simp [hne]), ih hnd.2 h]

theorem clientsGet_ids_subset (cs : Clients) (X : String) (x : Nat)
    (hx : x ∈ (clientsGet cs X).map Queue.id) :
    x ∈ ((cs.map (fun e => e.2.map Queue.id)).flatten) := by
  unfold clientsGet at hx
  cases hf : cs.find? (fun e => e.1 == X) with
  | none => rw [hf] at hx; cases hx
  | some e2 =>
    rw [hf] at hx
    exact List.mem_flatten.mpr
      ⟨e2.2.map Queue.id,
        List.mem_map_of_mem (fun e => e.2.map Queue.id) (List.mem_of_find?_eq_some hf), hx⟩

theorem not_mem_clientsGet (cs : Clients) (X : String) (e : String × List Queue)
    (q : Queue) (hnd : ((cs.map (fun x => x.2.map Queue.id)).flatten).Nodup)
    (he : e ∈ cs) (hq : q ∈ e.2) (hne : e.1 ≠ X) :
    q.id ∉ (clientsGet cs X).map Queue.id := by
  induction cs with
  | nil => cases he
  | cons a cs ih =>
    rw [List.map_cons, List.flatten_cons, List.nodup_append] at hnd
    rcases List.mem_cons.mp he with h | h
    · subst h
      have hget : clientsGet (e :: cs) X = clientsGet cs X := by
        unfold clientsGet
        rw [List.find?_cons_of_neg _ (by simp [hne])]
      rw [hget]
      intro hmem
      exact hnd.2.2 (List.mem_map_of_mem Queue.id hq) (clientsGet_ids_subset cs X q.id hmem)
    · cases hfa : (a.1 == X) with
      | true =>
        have hfp : List.find? (fun x => x.1 == X) (a :: cs) = some a :=
          List.find?_cons_of_pos cs hfa
        have hget : clientsGet (a :: cs) X = a.2 := by
          unfold clientsGet
          rw [hfp]
        rw [hget]
        intro hmem
        exact hnd.2.2 hmem
          (List.mem_flatten.mpr
            ⟨e.2.map Queue.id, List.mem_map_of_mem (fun x => x.2.map Queue.id) h,
              List.mem_map_of_mem Queue.id hq⟩)
      | false =>
        have hget : clientsGet (a :: cs) X = clientsGet cs X := by
          unfold clientsGet
          rw [List.find?_cons_of_neg _ (by simp [hfa])]
        rw [hget]
        exact ih hnd.2.1 h

/-- C6: `broadcast` serializes the message once into a single payload and:
with `identityId = X` (a nonempty string — registered keys are
`str(current_user.id)`, and the empty string is falsy to the source's
`if user_id`) it appends that payload to every queue registered under X
and leaves every queue registered under any other identity untouched;
with `identityId` absent it appends the payload to every queue of every
identity registered at the moment of the call. -/
theorem broadcast_delivery {Msg : Type} (serialize : Msg → String) (cs : Clients)
    (m : Msg) (X : String) (hwf : ClientsWF cs) (hX : X ≠ "") :
    (broadcast serialize cs m (some X)
        = cs.map (fun e =>
            if e.1 = X then (e.1, e.2.map (fun q => ⟨q.id, q.buf ++ [serialize m]⟩))
            else e)) ∧
      broadcast serialize cs m none
        = cs.map (fun e => (e.1, e.2.map (fun q => ⟨q.id, q.buf ++ [serialize m]⟩))) := by
  constructor
  · unfold broadcast
    apply List.map_congr_left
    intro e he
    have htr : pyTruthy (some X) = true := by simp [pyTruthy, hX]
    simp only [targetsOf, htr, if_true, Option.getD_some]
    by_cases hkey : e.1 = X
    · rw [if_pos hkey]
      have hfind : cs.find? (fun x => x.1 == X) = some e := by
        have h0 := find_key_of_mem cs e hwf.1 he
        rwa [hkey] at h0
      have hget : clientsGet cs X = e.2 := by unfold clientsGet; rw [hfind]
      have : ∀ q ∈ e.2, q.id ∈ (clientsGet cs X).map Queue.id := by
        intro q hq
        rw [hget]
        exact List.mem_map_of_mem Queue.id hq
      refine congrArg (fun l => (e.1, l)) ?_
      apply List.map_congr_left
      intro q hq
      rw [if_pos (this q hq)]
    · rw [if_neg hkey]
      have hnotin : ∀ q ∈ e.2, q.id ∉ (clientsGet cs X).map Queue.id :=
        fun q hq => not_mem_clientsGet cs X e q hwf.2 he hq hkey
      have : e.2.map (fun q => if q.id ∈ (clientsGet cs X).map Queue.id then
          (⟨q.id, q.buf ++ [serialize m]⟩ : Queue) else q) = e.2 := by
        rw [List.map_congr_left (fun q hq => if_neg (hnotin q hq))]
        exact List.map_id' e.2
      rw [this]
  · unfold broadcast
    apply List.map_congr_left
    intro e he
    simp only [targetsOf, pyTruthy, Bool.false_eq_true, if_false]
    refine congrArg (fun l => (e.1, l)) ?_
    apply List.map_congr_left
    intro q hq
    rw [if_pos]
    exact List.mem_map_of_mem Queue.id
      (List.mem_flatten.mpr ⟨e.2, List.mem_map_of_mem (fun x => x.2) he, hq⟩)

theorem broadcast_delivery_witness :
    broadcast (fun s : String => s) [(("1"), [⟨0, []⟩]), (("2"), [⟨1, [("x")]⟩])]
        ("hello") (some ("1"))
      = [(("1"), [⟨0, [("hello")]⟩]), (("2"), [⟨1, [("x")]⟩])] := by
  have h := (broadcast_delivery (fun s : String => s)
      [(("1"), [⟨0, []⟩]), (("2"), [⟨1, [("x")]⟩])] ("hello") ("1")
      ⟨by decide, by decide⟩ (by decide)).1
  rw [h]
  rfl

/-- C8: an unauthenticated connection-open attempt (no current user, or
one whose `is_authenticated` flag is false) is closed with application
close code 4001 and reason "Unauthorized" before any handle is created
or registered: the registry is returned unchanged and
`get_connected_users` lists exactly what it listed before the attempt. -/
theorem ws_rejects_unauthenticated (caller : Option CurrentUser) (cs : Clients)
    (freshId : Nat)
    (h : caller = none ∨
      ∃ u : CurrentUser, caller = some u ∧ u.is_authenticated = false) :
    ws_endpoint_open caller cs freshId = (.closed 4001 ("Unauthorized"), cs) ∧
      get_connected_users (ws_endpoint_open caller cs freshId).2
        = get_connected_users cs := by
  rcases h with h | ⟨u, h, hu⟩ <;> subst h
  · exact ⟨rfl, rfl⟩
  · refine ⟨?_, ?_⟩ <;> simp [ws_endpoint_open, hu]

theorem ws_rejects_unauthenticated_witness :
    ws_endpoint_open (some ⟨5, false⟩) [(("7"), [⟨0, []⟩])] 3
      = (.closed 4001 ("Unauthorized"), [(("7"), [⟨0, []⟩])]) :=
  (ws_rejects_unauthenticated (some ⟨5, false⟩) [(("7"), [⟨0, []⟩])] 3
      (Or.inr ⟨⟨5, false⟩, rfl, rfl⟩)).1

/-! ## Theorems: activity sink -/

/-- C10: `Activity.register` adds the activity entry to the storage
session and returns it under both hub outcomes: a broadcast failure is
swallowed inside `register` (the result is `.ok` either way), so
persisting the activity never fails because of the hub. -/
theorem activity_register_swallows_broadcast_failure (serialize : Activity → String)
    (pending : List Activity) (cs : Clients) (uid : Nat) (action : String)
    (data : Option String) (hubOk : Bool) :
    ∃ cs2 : Clients,
      Activity.register serialize pending cs uid action data hubOk
        = .ok (⟨uid, action, data⟩, pending ++ [⟨uid, action, data⟩], cs2) := by
  cases hubOk
  · exact ⟨cs, rfl⟩
  · exact ⟨broadcast serialize cs ⟨uid, action, data⟩ none, rfl⟩

end Stk
